import Mathlib

/-!
Verification of the DSLR astronomy toolbox's star-tracking and
aperture-photometry engine (`src/photometry.py`).

The Python code is shallowly embedded: numpy floats become `ℝ`,
positions become pairs of reals, image planes become lists of rows of
reals, Python lists become Lean lists, and methods that can raise (and
whose exceptions are caught by a surrounding `try`) return `Option`.
External library calls (photutils aperture sums, astropy sigma-clipped
statistics of annulus pixels) enter the photometry functions as explicit
numeric arguments, exactly where the source reads their results; the
sigma-clipping used for the tracker's adaptive threshold is embedded
directly since the tracker's control flow depends on it.
-/

namespace DSLRPhot

open Classical

noncomputable section

/-- A sub-pixel position `(x, y)`, as the Python tuples of floats. -/
abbrev Pos := ℝ × ℝ

/-- Euclidean distance, `np.sqrt((ax-bx)**2 + (ay-by)**2)` as used throughout
`photometry.py`. -/
def dist (a b : Pos) : ℝ :=
  Real.sqrt ((a.1 - b.1) ^ 2 + (a.2 - b.2) ^ 2)

/-- Python `int(x)` on a float: truncation toward zero. -/
def pyInt (x : ℝ) : ℤ :=
  if 0 ≤ x then ⌊x⌋ else -⌊-x⌋

/-- Aperture geometry, `self.aperture_params` in the source. -/
structure ApertureParams where
  inner_radius : ℝ
  inner_annulus : ℝ
  outer_annulus : ℝ

/-- One channel's measurement record, the numeric core of the dict built by
`perform_aperture_photometry` (src/photometry.py lines 2120-2131). -/
structure ChannelMeasurement where
  star_flux_raw : ℝ
  sky_background_total : ℝ
  sky_per_pixel : ℝ
  sky_std : ℝ
  star_flux_corrected : ℝ
  poisson_noise : ℝ

/-- Poisson noise as computed at src/photometry.py line 2118 (and 2175, 2199):
`np.sqrt(abs(star_flux_raw)) if star_flux_raw > 0 else 0`. -/
def poissonNoise (raw : ℝ) : ℝ :=
  if raw > 0 then Real.sqrt |raw| else 0

/-- Grayscale aperture photometry, src/photometry.py lines 2060-2131.
`raw` is `float(aper_stats.sum)`; `annulusMedian`/`annulusStd` are the
sigma-clipped median and std that `ApertureStats` reports for the sky
annulus (external photutils/astropy computation, passed in as data).
`aper_stats.sum_aper_area.value` for the circular signal aperture is its
analytic area `π r²` (the value of `CircularAperture.area`). -/
def perform_aperture_photometry (p : ApertureParams)
    (raw annulusMedian annulusStd : ℝ) : ChannelMeasurement :=
  if p.inner_annulus ≥ p.outer_annulus then
    { star_flux_raw := raw
      sky_background_total := 0
      sky_per_pixel := 0
      sky_std := 0
      star_flux_corrected := raw
      poisson_noise := poissonNoise raw }
  else
    let area := Real.pi * p.inner_radius ^ 2
    let bg := annulusMedian * area
    { star_flux_raw := raw
      sky_background_total := bg
      sky_per_pixel := annulusMedian
      sky_std := annulusStd
      star_flux_corrected := raw - bg
      poisson_noise := poissonNoise raw }

/-- One RGB channel of `perform_rgb_photometry`, src/photometry.py lines
2156-2185 (the grayscale channel at lines 2187-2208 is identical in shape).
Unlike the grayscale routine above, this path builds the sky annulus and
subtracts the sigma-clipped sky median unconditionally: there is no
`inner_annulus >= outer_annulus` branch anywhere in the function. -/
def perform_rgb_channel_photometry (p : ApertureParams)
    (raw annulusMedian annulusStd : ℝ) : ChannelMeasurement :=
  let area := Real.pi * p.inner_radius ^ 2
  let bg := annulusMedian * area
  { star_flux_raw := raw
    sky_background_total := bg
    sky_per_pixel := annulusMedian
    sky_std := annulusStd
    star_flux_corrected := raw - bg
    poisson_noise := poissonNoise raw }

/-- The tracker's sliding-window history, the triple of instance attributes
`position_history`, `velocity_history`, `tracking_confidence` initialised at
src/photometry.py lines 88-91. -/
structure TrackState where
  position_history : List Pos
  velocity_history : List Pos
  tracking_confidence : List ℝ

/-- The bound `self.tracking_history_size = 5` (src/photometry.py line 90). -/
def tracking_history_size : ℕ := 5

/-- The empty history a fresh session starts with. -/
def emptyTrackState : TrackState := ⟨[], [], []⟩

/-- Embedding of `_update_tracking_history` (src/photometry.py lines 1867-1889): append
position and confidence; if at least two positions are now stored, append the
velocity between the two most recent; then drop the oldest entries while any
list is longer than `tracking_history_size` (Python `pop(0)`).  The position
and confidence lists are popped under the same `len(position_history)` test,
exactly as in the source. -/
def update_tracking_history (st : TrackState) (pos : Pos) (conf : ℝ) : TrackState :=
  let ph := st.position_history ++ [pos]
  let tc := st.tracking_confidence ++ [conf]
  let vh :=
    if 2 ≤ ph.length then
      match st.position_history.getLast? with
      | some prev => st.velocity_history ++ [(pos.1 - prev.1, pos.2 - prev.2)]
      | none => st.velocity_history
    else st.velocity_history
  { position_history := if tracking_history_size < ph.length then ph.tail else ph
    tracking_confidence := if tracking_history_size < ph.length then tc.tail else tc
    velocity_history := if tracking_history_size < vh.length then vh.tail else vh }

/-- The last `n` entries of a list, in order (what survives FIFO eviction). -/
def lastN (n : ℕ) (l : List α) : List α := l.drop (l.length - n)

/-- Consecutive frame-to-frame differences: the velocity entries that a run of
pushes generates, in order. -/
def posDiffs : List Pos → List Pos
  | a :: b :: rest => (b.1 - a.1, b.2 - a.2) :: posDiffs (b :: rest)
  | _ => []

/-- Replay a whole sequence of `_update_tracking_history` calls from the empty
history. -/
def pushAll (pushes : List (Pos × ℝ)) : TrackState :=
  pushes.foldl (fun s pc => update_tracking_history s pc.1 pc.2) emptyTrackState

/-- Embedding of `_predict_position_with_momentum` (src/photometry.py lines 1507-1531):
with fewer than two recorded positions the expected position is returned;
otherwise a recency-weighted average of the velocity history (weight
`(i+1)/n` for the i-th oldest of n entries, normalised by the weight sum) is
added to the expected position. -/
def predict_position_with_momentum (st : TrackState) (expected : Pos) : Pos :=
  if st.position_history.length < 2 then expected
  else if st.velocity_history.length = 0 then expected
  else
    let n : ℝ := st.velocity_history.length
    let sw := (st.velocity_history.enum.map (fun q => ((q.1 + 1 : ℕ) : ℝ) / n)).sum
    let ax := (st.velocity_history.enum.map
      (fun q => q.2.1 * (((q.1 + 1 : ℕ) : ℝ) / n))).sum / sw
    let ay := (st.velocity_history.enum.map
      (fun q => q.2.2 * (((q.1 + 1 : ℕ) : ℝ) / n))).sum / sw
    (expected.1 + ax, expected.2 + ay)

/-- Arithmetic mean of a list of reals (`np.mean`); 0 on the empty list. -/
def listMean (l : List ℝ) : ℝ := l.sum / l.length

/-- Embedding of `np.std` (ddof=0): the square root of the mean squared deviation. -/
def listStd (l : List ℝ) : ℝ :=
  Real.sqrt ((l.map (fun x => (x - listMean l) ^ 2)).sum / l.length)

/-- The `sqrt(std_x**2 + std_y**2)` of the last five recorded positions
(src/photometry.py lines 1538-1545). -/
def position_variance (hist : List Pos) : ℝ :=
  let recent := lastN 5 hist
  Real.sqrt (listStd (recent.map Prod.fst) ^ 2 + listStd (recent.map Prod.snd) ^ 2)

/-- Embedding of `_calculate_adaptive_search_radius` (src/photometry.py lines 1533-1553)
over reals: with fewer than three recorded positions the base radius is
returned; otherwise `int(base_radius + 2 * position_variance)` — note the
Python `int(...)` truncation — clamped to `[base_radius, base_radius * 2]`. -/
def adaptive_search_radius (hist : List Pos) (base : ℝ) : ℝ :=
  if hist.length < 3 then base
  else max base (min ((pyInt (base + 2 * position_variance hist) : ℝ)) (base * 2))

/-- The claimed contract for the adaptive radius (spec section 4.1): the same
clamp, but applied to the untruncated real value `base + 2 * variance`. -/
def adaptive_radius_claimed (hist : List Pos) (base : ℝ) : ℝ :=
  if hist.length < 3 then base
  else max base (min (base + 2 * position_variance hist) (base * 2))

/-- The integer-valued adaptive radius as the tracker actually consumes it:
the GUI slider supplies an integer base radius, so every branch of
`_calculate_adaptive_search_radius` yields an integer. -/
def adaptive_search_radius_int (hist : List Pos) (base : ℤ) : ℤ :=
  if hist.length < 3 then base
  else max base (min (pyInt ((base : ℝ) + 2 * position_variance hist)) (base * 2))

/-- Insert a real into a sorted list (helper for the median's sort). -/
def insertR (x : ℝ) : List ℝ → List ℝ
  | [] => [x]
  | y :: ys => if x ≤ y then x :: y :: ys else y :: insertR x ys

/-- Insertion sort on reals (the sort underlying `np.median`). -/
def sortR (l : List ℝ) : List ℝ := l.foldr insertR []

/-- Embedding of `np.median`: middle element of the sorted list, or the average of the two
middle elements for even length; 0 on the empty list (which the source never
queries). -/
def listMedian (l : List ℝ) : ℝ :=
  let s := sortR l
  let n := l.length
  if n = 0 then 0
  else if n % 2 = 1 then s.getD (n / 2) 0
  else (s.getD (n / 2 - 1) 0 + s.getD (n / 2) 0) / 2

/-- One pass of astropy sigma clipping at sigma=3 around the median: values
outside `[median - 3*std, median + 3*std]` are discarded, iterating until a
fixpoint or the iteration budget runs out. -/
def sigmaClipLoop : ℕ → List ℝ → List ℝ
  | 0, l => l
  | fuel + 1, l =>
    let c := listMedian l
    let s := listStd l
    let l2 := l.filter (fun v => decide (c - 3 * s ≤ v ∧ v ≤ c + 3 * s))
    if l2.length = l.length then l else sigmaClipLoop fuel l2

/-- Embedding of `astropy.stats.sigma_clipped_stats(data, sigma=3.0)` as called at
src/photometry.py line 1560: returns (mean, median, std) of the clipped
data. -/
def sigma_clipped_stats (l : List ℝ) : ℝ × ℝ × ℝ :=
  let f := sigmaClipLoop 10 l
  (listMean f, listMedian f, listStd f)

/-- Maximum entry of a list of reals (`np.max`); the source only evaluates it
on nonempty data. -/
def listMax (l : List ℝ) : ℝ := l.foldl max (l.headD 0)

/-- An image plane: a list of pixel rows, each a list of reals.  Real inputs
are rectangular numpy arrays. -/
abbrev Image := List (List ℝ)

/-- Row count `image_data.shape[0]`. -/
def numRows (img : Image) : ℕ := img.length

/-- Column count `image_data.shape[1]` of a rectangular plane. -/
def numCols (img : Image) : ℕ := (img.headD []).length

/-- The clamped cutout bounds of `track_star_position` STEP 3
(src/photometry.py lines 1409-1413): `x_min = max(0, x_int - r)`,
`x_max = min(shape[1], x_int + r)` and likewise for y. -/
structure Region where
  x_lo : ℤ
  x_hi : ℤ
  y_lo : ℤ
  y_hi : ℤ

/-- Compute the search-region bounds around the (integer-truncated) search
center. -/
def search_region (img : Image) (searchX searchY : ℝ) (radius : ℤ) : Region :=
  { x_lo := max 0 (pyInt searchX - radius)
    x_hi := min (numCols img : ℤ) (pyInt searchX + radius)
    y_lo := max 0 (pyInt searchY - radius)
    y_hi := min (numRows img : ℤ) (pyInt searchY + radius) }

/-- Python slice `l[lo:hi]` for clamped nonnegative bounds. -/
def slice2 (l : List α) (lo hi : ℤ) : List α :=
  (l.drop lo.toNat).take (hi - lo).toNat

/-- The cutout `image_data[y_min:y_max, x_min:x_max]`. -/
def cutoutOf (img : Image) (reg : Region) : Image :=
  (slice2 img reg.y_lo reg.y_hi).map (fun row => slice2 row reg.x_lo reg.x_hi)

/-- Pixel count `cutout.size` (zero exactly when the numpy size
is zero). -/
def cutSize (c : Image) : ℕ := (c.map List.length).sum

/-- Embedding of `_calculate_adaptive_threshold` (src/photometry.py lines 1555-1581):
sigma-clipped median and std of the cutout, a brightness-dependent
multiplier, and `threshold = median + multiplier * std`.  Returns
`(threshold, peak_brightness)`. -/
def calculate_adaptive_threshold (cutout : Image) : ℝ × ℝ :=
  let flat := cutout.flatten
  let stats := sigma_clipped_stats flat
  let med := stats.2.1
  let sd := stats.2.2
  let peak := listMax flat
  let q := (peak - med) / (sd + 1 / 1000000)
  let mult : ℝ := if q > 10 then 2 else if q > 5 then 5 / 2 else 3
  (med + mult * sd, peak)

/-- Total of a weight plane. -/
def gridTotal (w : Image) : ℝ := (w.map List.sum).sum

/-- Sum of `f rowIndex colIndex value` over a weight plane. -/
def gridSum (w : Image) (f : ℕ → ℕ → ℝ → ℝ) : ℝ :=
  (w.enum.map (fun p => (p.2.enum.map (fun q => f p.1 q.1 q.2)).sum)).sum

/-- Embedding of `photutils.centroids.centroid_com`: the intensity-weighted centroid
`(x̄, ȳ)` of a weight plane. -/
def centroid_com (w : Image) : ℝ × ℝ :=
  (gridSum w (fun _ j v => (j : ℝ) * v) / gridTotal w,
   gridSum w (fun i _ v => (i : ℝ) * v) / gridTotal w)

/-- Embedding of `np.unravel_index(np.argmax(cutout), cutout.shape)`: row-major index of
the first occurrence of the maximum, split into `(row, col)` using the
column count. -/
def argmax2d (c : Image) : ℕ × ℕ :=
  let flat := c.flatten
  let m := listMax flat
  let k := (flat.findIdx (fun v => decide (v = m)))
  let cols := (c.headD []).length
  (k / cols, k % cols)

/-- Zero-clipped thresholded weights `np.maximum(data - threshold, 0)`. -/
def clipWeights (c : Image) (t : ℝ) : Image :=
  c.map (List.map (fun v => max (v - t) 0))

/-- Embedding of `track_star_position` (src/photometry.py lines 1389-1501).  Steps:
momentum prediction, adaptive radius, cutout extraction (empty cutout
returns the expected position untouched), adaptive threshold, then method A
(global center of mass, confidence 0.8), method B (peak plus local weighted
centroid in an 11x11 window, confidence 0.6), method C (momentum prediction
within the adaptive radius, confidence 0.3), and the final fallback that
returns the expected position with confidence 0.1.  Every method that
returns first records its answer with `_update_tracking_history`.  The
result pairs the returned position with the updated history state. -/
def track_star_position (img : Image) (expected : Pos) (base : ℤ)
    (st : TrackState) : Pos × TrackState :=
  let predicted := predict_position_with_momentum st expected
  let radius := adaptive_search_radius_int st.position_history base
  let reg := search_region img predicted.1 predicted.2 radius
  let cutout := cutoutOf img reg
  if cutSize cutout = 0 then (expected, st)
  else
    let threshold := (calculate_adaptive_threshold cutout).1
    let starRegion := clipWeights cutout threshold
    let totalA := gridTotal starRegion
    let comA := centroid_com starRegion
    let txA := comA.1 + (reg.x_lo : ℝ)
    let tyA := comA.2 + (reg.y_lo : ℝ)
    let dA := dist (txA, tyA) expected
    if 0 < totalA ∧ dA ≤ (radius : ℝ) * (3 / 2) ∧
        5 < txA ∧ txA < (numCols img : ℝ) - 5 ∧
        5 < tyA ∧ tyA < (numRows img : ℝ) - 5 then
      ((txA, tyA), update_tracking_history st (txA, tyA) 0.8)
    else
      let pk := argmax2d cutout
      let y_lo2 : ℤ := max 0 ((pk.1 : ℤ) - 5)
      let y_hi2 : ℤ := min (cutout.length : ℤ) ((pk.1 : ℤ) + 5 + 1)
      let x_lo2 : ℤ := max 0 ((pk.2 : ℤ) - 5)
      let x_hi2 : ℤ := min ((cutout.headD []).length : ℤ) ((pk.2 : ℤ) + 5 + 1)
      let window := (slice2 cutout y_lo2 y_hi2).map (fun row => slice2 row x_lo2 x_hi2)
      let weights := clipWeights window threshold
      let totalB := gridTotal weights
      let comB := centroid_com weights
      let txB := comB.1 + (x_lo2 : ℝ) + (reg.x_lo : ℝ)
      let tyB := comB.2 + (y_lo2 : ℝ) + (reg.y_lo : ℝ)
      let dB := dist (txB, tyB) expected
      if 0 < totalB ∧ dB ≤ (radius : ℝ) * (3 / 2) ∧
          5 < txB ∧ txB < (numCols img : ℝ) - 5 ∧
          5 < tyB ∧ tyB < (numRows img : ℝ) - 5 then
        ((txB, tyB), update_tracking_history st (txB, tyB) 0.6)
      else
        if predicted ≠ expected ∧ dist predicted expected ≤ (radius : ℝ) then
          (predicted, update_tracking_history st predicted 0.3)
        else
          (expected, update_tracking_history st expected 0.1)

/-- The per-frame result record: the fields of the dict built at
src/photometry.py lines 1371-1380 and 2755-2764 that the workflow claims
concern (index, tracked position, movement); the photometric channel values
live in `ChannelMeasurement` above. -/
structure SessionResult where
  image_index : ℕ
  tracked_position : Pos
  movement_pixels : ℝ

instance : Inhabited SessionResult := ⟨⟨0, (0, 0), 0⟩⟩

/-- Pad a position list with `None` until it reaches index `k`
(the `while len(...) <= index: append(None)` idiom at src/photometry.py
lines 1163-1165, 1174-1176, 3066-3067). -/
def extendToIncl (l : List (Option Pos)) (k : ℕ) : List (Option Pos) :=
  l ++ List.replicate (k + 1 - l.length) none

/-- Embedding of `update_position_after_navigation` in `paused_tracking_mode ==
'sequential'` combined with `mark_frames_for_reprocessing_from`
(src/photometry.py lines 1157-1204): pad `frame_positions` up to index `k`,
overwrite index `k`, then pop positions and photometry results from the end
down to length `k + 1`. -/
def update_position_after_navigation_sequential
    (framePositions : List (Option Pos)) (photometryResults : List SessionResult)
    (k : ℕ) (newPos : Pos) : List (Option Pos) × List SessionResult :=
  let ps := (extendToIncl framePositions k).set k (some newPos)
  (ps.take (k + 1), photometryResults.take (k + 1))

/-- Embedding of `update_preselection_position_during_pause` (src/photometry.py lines
3035-3086, list mutation at 3065-3075): pad `preselected_positions` up to the
current index and overwrite it; the source explicitly performs no truncation
here ("Do NOT remove positions from frames after this one during pause
navigation") — positions after the current frame are preserved. -/
def update_preselection_position_during_pause
    (preselected : List (Option Pos)) (k : ℕ) (refinedPos : Pos) :
    List (Option Pos) :=
  (extendToIncl preselected k).set k (some refinedPos)

/-- Embedding of `process_single_image` in batch mode (src/photometry.py lines 1287-1387
with `self.batch_processing_mode` true).  A frame is `none` when its pixel
plane cannot be decoded (`fits.open` raises, caught at line 1384, returning
`None`).  With a decoded frame: the pre-selected position is used directly;
`movement` for frame 0 is 0.0, and for a later frame the Euclidean distance
to `preselected_positions[0]` (line 1315) — a `None` stored position, or a
`None` at index 0, makes that line (or the subsequent photometry) raise,
which the handler at line 1384 converts to `None`. -/
def process_single_image_batch (frame : Option Image) (expectedPos : Option Pos)
    (i : ℕ) (preselected : List (Option Pos)) : Option SessionResult :=
  match frame with
  | none => none
  | some _ =>
    match expectedPos with
    | none => none
    | some p =>
      if i = 0 then some ⟨0, p, 0⟩
      else
        match preselected.getD 0 none with
        | none => none
        | some p0 => some ⟨i, p, dist p p0⟩

/-- The loop body of `process_batch_photometry` (src/photometry.py lines
3696-3723) over the enumerated frame/position pairs: failed frames append
nothing, successful frames append their record, and the index advances
either way.  `stop_processing` and `paused` are never set in this model
(the claims concern an uninterrupted run). -/
def batch_go (preselected : List (Option Pos)) :
    ℕ → List (Option Image × Option Pos) → List SessionResult
  | _, [] => []
  | i, (f, p) :: rest =>
    match process_single_image_batch f p i preselected with
    | some r => r :: batch_go preselected (i + 1) rest
    | none => batch_go preselected (i + 1) rest

/-- Embedding of `process_batch_photometry` (src/photometry.py lines 3690-3751): iterate
`zip(self.fits_files[:len(self.preselected_positions)],
self.preselected_positions)` from index 0, accumulating the records of the
frames that succeed. -/
def process_batch_photometry (files : List (Option Image))
    (preselected : List (Option Pos)) : List SessionResult :=
  batch_go preselected 0 ((files.take preselected.length).zip preselected)

/-- The movement/record logic of `process_current_frame` (src/photometry.py
lines 2724-2774, sequential manual mode).  `frame_positions` already holds
the current frame's clicked position (appended at line 2665 before this runs).
Movement is 0.0 unless `frame_index > 0` and more than one position is
stored, in which case it is the distance to `frame_positions[frame_index-1]`;
an out-of-range index or a stored `None` there raises, the handler at
line 2773 swallows it, and no record is appended (`none`). -/
def process_current_frame (frameIdx : ℕ) (starPos : Pos)
    (framePositions : List (Option Pos)) : Option SessionResult :=
  if 0 < frameIdx ∧ 1 < framePositions.length then
    match framePositions.getD (frameIdx - 1) none with
    | some prev => some ⟨frameIdx, starPos, dist starPos prev⟩
    | none => none
  else some ⟨frameIdx, starPos, 0⟩

/-! Helper lemmas shared by several claim proofs. -/

/-- The source's conditional Poisson noise equals `sqrt(max(raw, 0))`. -/
theorem poissonNoise_eq_sqrt_max (raw : ℝ) : poissonNoise raw = Real.sqrt (max raw 0) := by
  unfold poissonNoise
  by_cases h : raw > 0
  · rw [if_pos h, abs_of_pos h, max_eq_left h.le]
  · rw [if_neg h, max_eq_right (not_lt.mp h), Real.sqrt_zero]

/-- Distance between `(3,4)` and `(6,8)` is 5. -/
theorem dist_34_68 : dist (3, 4) (6, 8) = 5 := by
  unfold dist
  norm_num
  rw [show (25 : ℝ) = 5 ^ 2 by norm_num, Real.sqrt_sq (by norm_num : (0:ℝ) ≤ 5)]

/-- Distance from a point to itself is 0. -/
theorem dist_self (a : Pos) : dist a a = 0 := by
  unfold dist
  simp

/-- C3. The claim states that for every pixel plane (grayscale or RGB) and
every `ApertureParams` with `inner_annulus ≥ outer_annulus`, the measurement
returns `corrected_flux = raw_flux` and `sky_median = sky_std = 0` for every
channel.  This is false for RGB planes: `perform_rgb_photometry` applies sky
subtraction unconditionally, so with `inner_annulus = 8 ≥ 6 = outer_annulus`
an RGB channel with annulus median 5 reports a nonzero sky and a corrected
flux different from the raw flux. -/
theorem C3_counterexample :
    (8 : ℝ) ≥ 6 ∧
    (perform_rgb_channel_photometry ⟨3, 8, 6⟩ 100 5 1).sky_per_pixel ≠ 0 ∧
    (perform_rgb_channel_photometry ⟨3, 8, 6⟩ 100 5 1).star_flux_corrected ≠
      (perform_rgb_channel_photometry ⟨3, 8, 6⟩ 100 5 1).star_flux_raw := by
  unfold perform_rgb_channel_photometry
  refine ⟨by norm_num, by norm_num, ?_⟩
  simp only
  intro h
  have hp : Real.pi ≠ 0 := Real.pi_ne_zero
  nlinarith [Real.pi_gt_three]

/-- C3 (amended). For the grayscale path `perform_aperture_photometry`,
`inner_annulus ≥ outer_annulus` disables sky subtraction: the corrected flux
equals the raw flux and the sky median, std and background total are all
zero.  The RGB path performs sky subtraction unconditionally and does not
satisfy this (see the counterexample). -/
theorem C3_gray_no_sky_subtraction (p : ApertureParams) (raw med sd : ℝ)
    (h : p.inner_annulus ≥ p.outer_annulus) :
    (perform_aperture_photometry p raw med sd).star_flux_corrected = raw ∧
    (perform_aperture_photometry p raw med sd).sky_per_pixel = 0 ∧
    (perform_aperture_photometry p raw med sd).sky_std = 0 ∧
    (perform_aperture_photometry p raw med sd).sky_background_total = 0 := by
  unfold perform_aperture_photometry
  rw [if_pos h]
  exact ⟨rfl, rfl, rfl, rfl⟩

/-- Witness for C3's amended theorem at a concrete configuration. -/
theorem C3_gray_no_sky_subtraction_witness :
    (perform_aperture_photometry ⟨3, 8, 6⟩ 100 5 1).star_flux_corrected = 100 ∧
    (perform_aperture_photometry ⟨3, 8, 6⟩ 100 5 1).sky_per_pixel = 0 ∧
    (perform_aperture_photometry ⟨3, 8, 6⟩ 100 5 1).sky_std = 0 ∧
    (perform_aperture_photometry ⟨3, 8, 6⟩ 100 5 1).sky_background_total = 0 :=
  C3_gray_no_sky_subtraction ⟨3, 8, 6⟩ 100 5 1 (by norm_num)

/-- C8. With `inner_annulus < outer_annulus` the grayscale measurement uses
the analytic disk area: `background_total = sky_median * (π * inner_radius²)`,
`corrected_flux = raw_flux - background_total`, and
`poisson_noise = sqrt(max(raw_flux, 0))`; at `raw_flux = 1000`,
`sky_median = 5`, `inner_radius = 9` this gives `background_total ≈ 1272.35`,
`corrected_flux ≈ -272.35`, `poisson_noise ≈ 31.62` (each within 0.01). -/
theorem C8_background_formula (p : ApertureParams) (raw med sd : ℝ)
    (h : p.inner_annulus < p.outer_annulus) :
    ((perform_aperture_photometry p raw med sd).sky_background_total
        = med * (Real.pi * p.inner_radius ^ 2) ∧
      (perform_aperture_photometry p raw med sd).star_flux_corrected
        = raw - med * (Real.pi * p.inner_radius ^ 2) ∧
      (perform_aperture_photometry p raw med sd).poisson_noise
        = Real.sqrt (max raw 0)) ∧
    (|(perform_aperture_photometry ⟨9, 12, 20⟩ 1000 5 1).sky_background_total
        - 1272.35| < 1 / 100 ∧
      |(perform_aperture_photometry ⟨9, 12, 20⟩ 1000 5 1).star_flux_corrected
        + 272.35| < 1 / 100 ∧
      |(perform_aperture_photometry ⟨9, 12, 20⟩ 1000 5 1).poisson_noise
        - 31.62| < 1 / 100) := by
  have hgen : ∀ (q : ApertureParams) (r m s : ℝ), q.inner_annulus < q.outer_annulus →
      (perform_aperture_photometry q r m s).sky_background_total
          = m * (Real.pi * q.inner_radius ^ 2) ∧
        (perform_aperture_photometry q r m s).star_flux_corrected
          = r - m * (Real.pi * q.inner_radius ^ 2) ∧
        (perform_aperture_photometry q r m s).poisson_noise
          = Real.sqrt (max r 0) := by
    intro q r m s hq
    unfold perform_aperture_photometry
    rw [if_neg (not_le.mpr hq)]
    exact ⟨rfl, rfl, poissonNoise_eq_sqrt_max r⟩
  refine ⟨hgen p raw med sd h, ?_⟩
  obtain ⟨hbg, hcorr, hpn⟩ := hgen ⟨9, 12, 20⟩ 1000 5 1 (by norm_num)
  simp only at hbg hcorr hpn
  have hpi1 := Real.pi_gt_d6
  have hpi2 := Real.pi_lt_d6
  refine ⟨?_, ?_, ?_⟩
  · rw [hbg, abs_lt]
    constructor <;> nlinarith
  · rw [hcorr, abs_lt]
    constructor <;> nlinarith
  · rw [hpn, show max (1000 : ℝ) 0 = 1000 by norm_num, abs_lt]
    have hlo : (31.61 : ℝ) < Real.sqrt 1000 := by
      have := Real.sq_sqrt (by norm_num : (0:ℝ) ≤ 1000)
      nlinarith [Real.sqrt_nonneg (1000 : ℝ)]
    have hhi : Real.sqrt 1000 < 31.63 := by
      have := Real.sq_sqrt (by norm_num : (0:ℝ) ≤ 1000)
      nlinarith [Real.sqrt_nonneg (1000 : ℝ)]
    constructor <;> nlinarith

/-- Witness for C8 at the spec's worked example. -/
theorem C8_background_formula_witness :
    |(perform_aperture_photometry ⟨9, 12, 20⟩ 1000 5 1).sky_background_total
        - 1272.35| < 1 / 100 ∧
      |(perform_aperture_photometry ⟨9, 12, 20⟩ 1000 5 1).star_flux_corrected
        + 272.35| < 1 / 100 ∧
      |(perform_aperture_photometry ⟨9, 12, 20⟩ 1000 5 1).poisson_noise
        - 31.62| < 1 / 100 :=
  (C8_background_formula ⟨9, 12, 20⟩ 1000 5 1 (by norm_num)).2

/-- C2. The claim states that in every processing mode the `movement_pixels`
of the appended record for frame `i > 0` is the distance between frame `i`'s
position and frame `i-1`'s position.  This fails in batch mode: line 1315
measures the distance to `preselected_positions[0]`, the first frame's
position.  With positions `[(0,0), (3,4), (3,4)]`, frame 2's record carries
movement 5 (distance to frame 0), while the distance to frame 1's position
is 0. -/
theorem C2_counterexample :
    process_single_image_batch (some [[0]]) (some (3, 4)) 2
        [some ((6 : ℝ), (8 : ℝ)), some (3, 4), some (3, 4)]
      = some ⟨2, (3, 4), 5⟩ ∧
    dist (3, 4) (3, 4) = 0 ∧ (5 : ℝ) ≠ 0 := by
  refine ⟨?_, dist_self _, by norm_num⟩
  simp [process_single_image_batch, List.getD, dist_34_68]

/-- C2 (amended). Movement for frame 0 is 0.0 in both modes; in sequential
manual mode the movement of frame `i > 0` (with at least two stored
positions and a stored previous position) is the distance to frame `i-1`'s
position; in batch mode the movement of frame `i > 0` is the distance to
frame 0's preselected position, not the previous frame's. -/
theorem C2_movement_rules :
    (∀ (img : Image) (p p0 : Pos) (i : ℕ) (ps : List (Option Pos)),
        0 < i → ps.getD 0 none = some p0 →
        process_single_image_batch (some img) (some p) i ps = some ⟨i, p, dist p p0⟩) ∧
    (∀ (img : Image) (p : Pos) (ps : List (Option Pos)),
        process_single_image_batch (some img) (some p) 0 ps = some ⟨0, p, 0⟩) ∧
    (∀ (idx : ℕ) (pos prev : Pos) (fps : List (Option Pos)),
        0 < idx → 1 < fps.length → fps.getD (idx - 1) none = some prev →
        process_current_frame idx pos fps = some ⟨idx, pos, dist pos prev⟩) ∧
    (∀ (pos : Pos) (fps : List (Option Pos)),
        process_current_frame 0 pos fps = some ⟨0, pos, 0⟩) := by
  refine ⟨?_, ?_, ?_, ?_⟩
  · intro img p p0 i ps hi hp0
    have hne : i ≠ 0 := Nat.pos_iff_ne_zero.mp hi
    have hp0q : ps[0]?.getD none = some p0 := by
      rw [← List.getD_eq_getElem?_getD]
      exact hp0
    simp [process_single_image_batch, hne, hp0q]
  · intro img p ps
    simp [process_single_image_batch]
  · intro idx pos prev fps hidx hlen hprev
    unfold process_current_frame
    rw [if_pos ⟨hidx, hlen⟩, hprev]
  · intro pos fps
    unfold process_current_frame
    rw [if_neg (by simp)]

/-- Witness for C2's amended theorem: concrete batch and sequential frames. -/
theorem C2_movement_rules_witness :
    process_single_image_batch (some [[0]]) (some ((3 : ℝ), (4 : ℝ))) 1
        [some ((6 : ℝ), (8 : ℝ))]
      = some ⟨1, (3, 4), dist (3, 4) (6, 8)⟩ ∧
    process_current_frame 2 ((6 : ℝ), (8 : ℝ))
        [some ((1 : ℝ), (1 : ℝ)), some (3, 4), some (6, 8)]
      = some ⟨2, (6, 8), dist (6, 8) (3, 4)⟩ :=
  ⟨C2_movement_rules.1 [[0]] (3, 4) (6, 8) 1 [some (6, 8)] (by norm_num) (by simp [List.getD]),
   C2_movement_rules.2.2.1 2 (6, 8) (3, 4) [some (1, 1), some (3, 4), some (6, 8)]
     (by norm_num) (by simp) (by simp [List.getD])⟩

/-- C1. The claim states that overwriting the stored position at index `k`
while paused truncates positions and results to length `k+1` so that no
retained result was computed from a superseded position.  The truncation to
`k+1` keeps the result at index `k` itself, which was computed from the old,
now superseded, position: overwriting index 1 of positions
`[(1,1),(2,2),(3,3)]` (results recorded from those positions) with `(9,9)`
retains the result whose tracked position is `(2,2)` while `positions[1]`
is now `(9,9)`.  (During preselection pause the overwrite performs no
truncation at all; see `update_preselection_position_during_pause`.) -/
theorem C1_counterexample :
    (update_position_after_navigation_sequential
        [some ((1 : ℝ), (1 : ℝ)), some (2, 2), some (3, 3)]
        [⟨0, (1, 1), 0⟩, ⟨1, (2, 2), 0⟩, ⟨2, (3, 3), 0⟩] 1 (9, 9)).1
      = [some (1, 1), some (9, 9)] ∧
    (update_position_after_navigation_sequential
        [some ((1 : ℝ), (1 : ℝ)), some (2, 2), some (3, 3)]
        [⟨0, (1, 1), 0⟩, ⟨1, (2, 2), 0⟩, ⟨2, (3, 3), 0⟩] 1 (9, 9)).2
      = [⟨0, (1, 1), 0⟩, ⟨1, (2, 2), 0⟩] ∧
    (⟨1, (2, 2), 0⟩ : SessionResult).tracked_position ≠ ((9, 9) : Pos) ∧
    update_preselection_position_during_pause
        [some ((1 : ℝ), (1 : ℝ)), some (2, 2), some (3, 3), some (4, 4)] 1 (9, 9)
      = [some (1, 1), some (9, 9), some (3, 3), some (4, 4)] := by
  refine ⟨?_, ?_, ?_, ?_⟩
  · unfold update_position_after_navigation_sequential extendToIncl
    norm_num
  · unfold update_position_after_navigation_sequential
    norm_num
  · intro h
    have h2 := congrArg Prod.fst h
    norm_num at h2
  · unfold update_preselection_position_during_pause extendToIncl
    norm_num

/-- Unfolding of the padded list at already-present indices: padding with
`none` never changes any `getD ... none` lookup. -/
theorem extendToIncl_getD (l : List (Option Pos)) (k i : ℕ) :
    (extendToIncl l k).getD i none = l.getD i none := by
  unfold extendToIncl
  rcases lt_or_le i l.length with h | h
  · rw [List.getD_eq_getElem?_getD, List.getElem?_append_left h, ← List.getD_eq_getElem?_getD]
  · rw [List.getD_eq_getElem?_getD, List.getElem?_append_right h, List.getElem?_replicate,
      List.getD_eq_getElem?_getD, List.getElem?_eq_none h]
    split <;> rfl

/-- Length of the padded list. -/
theorem extendToIncl_length (l : List (Option Pos)) (k : ℕ) :
    (extendToIncl l k).length = max l.length (k + 1) := by
  unfold extendToIncl
  simp
  omega

/-- C1 (amended). Overwriting position `k` during a sequential-mode pause
truncates `frame_positions` to exactly length `k+1` and `photometry_results`
to length `min |results| (k+1)`, so the results never outnumber the
positions and every retained result at an index other than `k` was computed
from a position that is still stored; the result at index `k` itself, if
retained, was computed from the overwritten position.  (The preselection
pause overwrite truncates nothing.) -/
theorem C1_truncation (positions : List (Option Pos)) (results : List SessionResult)
    (k : ℕ) (p : Pos)
    (hcons : ∀ i, i < results.length →
        positions.getD i none = some ((results.getD i default).tracked_position)) :
    (update_position_after_navigation_sequential positions results k p).1.length = k + 1 ∧
    (update_position_after_navigation_sequential positions results k p).2.length
      = min results.length (k + 1) ∧
    (update_position_after_navigation_sequential positions results k p).2.length
      ≤ (update_position_after_navigation_sequential positions results k p).1.length ∧
    (update_position_after_navigation_sequential positions results k p).1.getD k none
      = some p ∧
    (∀ i, i < (update_position_after_navigation_sequential positions results k p).2.length →
      i ≠ k →
      (update_position_after_navigation_sequential positions results k p).1.getD i none
        = some (((update_position_after_navigation_sequential positions results k p).2.getD
            i default).tracked_position)) := by
  unfold update_position_after_navigation_sequential
  simp only [List.length_take, List.length_set]
  have hlen := extendToIncl_length positions k
  have hklt : k < (extendToIncl positions k).length := by omega
  refine ⟨by omega, by omega, by omega, ?_, ?_⟩
  · rw [List.getD_eq_getElem?_getD, List.getElem?_take_of_lt (by omega),
      List.getElem?_set_self (by omega)]
    rfl
  · intro i hi hik
    have hires : i < results.length := by omega
    have hik1 : i < k + 1 := by omega
    have hres : (List.take (k + 1) results).getD i default = results.getD i default := by
      rw [List.getD_eq_getElem?_getD, List.getElem?_take_of_lt hik1,
        ← List.getD_eq_getElem?_getD]
    rw [hres, List.getD_eq_getElem?_getD, List.getElem?_take_of_lt hik1,
      List.getElem?_set_ne (Ne.symm hik), ← List.getD_eq_getElem?_getD, extendToIncl_getD]
    exact hcons i hires

/-- Witness for C1's amended theorem at a one-frame session. -/
theorem C1_truncation_witness :
    (update_position_after_navigation_sequential [some ((5 : ℝ), (5 : ℝ))]
        [⟨0, (5, 5), 0⟩] 0 (7, 7)).1.length = 0 + 1 ∧
    (update_position_after_navigation_sequential [some ((5 : ℝ), (5 : ℝ))]
        [⟨0, (5, 5), 0⟩] 0 (7, 7)).2.length = min 1 (0 + 1) ∧
    (update_position_after_navigation_sequential [some ((5 : ℝ), (5 : ℝ))]
        [⟨0, (5, 5), 0⟩] 0 (7, 7)).2.length
      ≤ (update_position_after_navigation_sequential [some ((5 : ℝ), (5 : ℝ))]
        [⟨0, (5, 5), 0⟩] 0 (7, 7)).1.length ∧
    (update_position_after_navigation_sequential [some ((5 : ℝ), (5 : ℝ))]
        [⟨0, (5, 5), 0⟩] 0 (7, 7)).1.getD 0 none = some (7, 7) := by
  have h := C1_truncation [some ((5 : ℝ), (5 : ℝ))] [⟨0, (5, 5), 0⟩] 0 (7, 7)
    (by
      intro i hi
      simp only [List.length_cons, List.length_nil] at hi
      interval_cases i
      simp [List.getD])
  exact ⟨h.1, h.2.1, h.2.2.1, h.2.2.2.1⟩

/-- A successful single-image batch call records exactly the loop index. -/
theorem process_single_image_batch_index {f : Option Image} {p : Option Pos}
    {i : ℕ} {pre : List (Option Pos)} {r : SessionResult}
    (h : process_single_image_batch f p i pre = some r) : r.image_index = i := by
  unfold process_single_image_batch at h
  match f, p with
  | none, _ => exact absurd h (by simp)
  | some img, none => exact absurd h (by simp)
  | some img, some q =>
    simp only at h
    by_cases hi : i = 0
    · rw [if_pos hi] at h
      cases h
      subst hi
      rfl
    · rw [if_neg hi] at h
      match hq : pre.getD 0 none with
      | none => rw [hq] at h; cases h
      | some p0 => rw [hq] at h; cases h; rfl

/-- A successful single-image batch call requires a decoded frame and a
stored (non-`None`) position. -/
theorem process_single_image_batch_some {f : Option Image} {p : Option Pos}
    {i : ℕ} {pre : List (Option Pos)} {r : SessionResult}
    (h : process_single_image_batch f p i pre = some r) : f ≠ none ∧ p ≠ none := by
  unfold process_single_image_batch at h
  match f, p with
  | none, _ => exact absurd h (by simp)
  | some img, none => exact absurd h (by simp)
  | some img, some q => exact ⟨by simp, by simp⟩

/-- Every record the batch loop body emits has an index at least the loop
counter it started from. -/
theorem batch_go_index_ge (pre : List (Option Pos)) :
    ∀ (pairs : List (Option Image × Option Pos)) (i : ℕ) (r : SessionResult),
      r ∈ batch_go pre i pairs → i ≤ r.image_index := by
  intro pairs
  induction pairs with
  | nil => intro i r hr; simp [batch_go] at hr
  | cons fp rest ih =>
    intro i r hr
    obtain ⟨f, p⟩ := fp
    unfold batch_go at hr
    match hcall : process_single_image_batch f p i pre with
    | some r0 =>
      rw [hcall] at hr
      rcases List.mem_cons.mp hr with hr0 | hrest
      · subst hr0
        exact (process_single_image_batch_index hcall).ge
      · exact le_of_lt (Nat.lt_of_lt_of_le (Nat.lt_succ_self i) (ih (i + 1) r hrest))
    | none =>
      rw [hcall] at hr
      exact le_of_lt (Nat.lt_of_lt_of_le (Nat.lt_succ_self i) (ih (i + 1) r hr))

/-- Every record the batch loop emits originates from one of its enumerated
frame/position pairs, at the record's own index. -/
theorem batch_go_mem (pre : List (Option Pos)) :
    ∀ (pairs : List (Option Image × Option Pos)) (i : ℕ) (r : SessionResult),
      r ∈ batch_go pre i pairs →
      ∃ j, j < pairs.length ∧ r.image_index = i + j ∧
        process_single_image_batch (pairs.getD j (none, none)).1
          (pairs.getD j (none, none)).2 (i + j) pre = some r := by
  intro pairs
  induction pairs with
  | nil => intro i r hr; simp [batch_go] at hr
  | cons fp rest ih =>
    intro i r hr
    obtain ⟨f, p⟩ := fp
    unfold batch_go at hr
    match hcall : process_single_image_batch f p i pre with
    | some r0 =>
      rw [hcall] at hr
      rcases List.mem_cons.mp hr with hr0 | hrest
      · subst hr0
        exact ⟨0, by simp, by simpa using process_single_image_batch_index hcall,
          by simpa [List.getD] using hcall⟩
      · obtain ⟨j, hj, hidx, hcall2⟩ := ih (i + 1) r hrest
        exact ⟨j + 1, by simpa using Nat.succ_lt_succ hj, by omega,
          by
            have : i + 1 + j = i + (j + 1) := by omega
            rw [← this]
            simpa [List.getD] using hcall2⟩
    | none =>
      rw [hcall] at hr
      obtain ⟨j, hj, hidx, hcall2⟩ := ih (i + 1) r hr
      exact ⟨j + 1, by simpa using Nat.succ_lt_succ hj, by omega,
        by
          have : i + 1 + j = i + (j + 1) := by omega
          rw [← this]
          simpa [List.getD] using hcall2⟩

/-- C10. Batch automatic processing only ever touches the first
`min(#frames, #positions)` frames: every emitted record's index is below
that bound, and its stored preselected position is not `None` (frames with a
`None` position are skipped through the error path and emit nothing). -/
theorem C10_batch_domain (files : List (Option Image)) (ps : List (Option Pos))
    (r : SessionResult) (hr : r ∈ process_batch_photometry files ps) :
    r.image_index < min files.length ps.length ∧
    ps.getD r.image_index none ≠ none := by
  unfold process_batch_photometry at hr
  obtain ⟨j, hj, hidx, hcall⟩ := batch_go_mem ps _ 0 r hr
  have hplen : ((files.take ps.length).zip ps).length = min files.length ps.length := by
    simp [List.length_zip]
    omega
  have hjlen : j < min files.length ps.length := by omega
  have hjf : j < (files.take ps.length).length := by
    simp
    omega
  have hjp : j < ps.length := by omega
  have hidx0 : r.image_index = j := by omega
  have hb : ps[j]? = some ps[j] := List.getElem?_eq_getElem hjp
  have ha : (files.take ps.length)[j]? = some (files.take ps.length)[j] :=
    List.getElem?_eq_getElem hjf
  have hpair : ((files.take ps.length).zip ps)[j]?
      = some ((files.take ps.length)[j], ps[j]) :=
    List.getElem?_zip_eq_some.mpr ⟨ha, hb⟩
  have hgd : ((files.take ps.length).zip ps).getD j (none, none)
      = ((files.take ps.length)[j], ps[j]) := by
    rw [List.getD_eq_getElem?_getD, hpair]
    rfl
  rw [hgd] at hcall
  have hsnd := (process_single_image_batch_some hcall).2
  constructor
  · omega
  · rw [hidx0, List.getD_eq_getElem?_getD, hb]
    simpa using hsnd

/-- Witness for C10 at a one-frame batch run. -/
theorem C10_batch_domain_witness :
    (⟨0, ((1 : ℝ), (2 : ℝ)), 0⟩ : SessionResult).image_index <
      min ([some [[(0 : ℝ)]]] : List (Option Image)).length
        ([some ((1 : ℝ), (2 : ℝ))] : List (Option Pos)).length ∧
    ([some ((1 : ℝ), (2 : ℝ))] : List (Option Pos)).getD
      (⟨0, ((1 : ℝ), (2 : ℝ)), 0⟩ : SessionResult).image_index none ≠ none :=
  C10_batch_domain [some [[(0 : ℝ)]]] [some ((1 : ℝ), (2 : ℝ))] ⟨0, ((1 : ℝ), (2 : ℝ)), 0⟩
    (by simp [process_batch_photometry, batch_go, process_single_image_batch])

/-- C6. The claim states that a decode failure on the very first frame is
fatal and aborts the batch.  It is not: `process_batch_photometry` treats
frame 0 like any other frame — the failure is logged, no record is appended,
and the loop continues.  Here frame 0 fails to decode and the batch still
produces frame 1's record. -/
theorem C6_counterexample :
    process_batch_photometry [none, some [[(0 : ℝ)]]]
        [some ((6 : ℝ), (8 : ℝ)), some (3, 4)]
      = [⟨1, (3, 4), 5⟩] ∧
    ([⟨1, (3, 4), 5⟩] : List SessionResult) ≠ [] := by
  refine ⟨?_, by simp⟩
  simp [process_batch_photometry, batch_go, process_single_image_batch, List.getD,
    dist_34_68]

/-- C6 (amended). A frame whose pixel plane cannot be decoded — including
the very first frame — is skipped with no record appended, and processing
continues with the next frame: failing frame 0's decode yields exactly the
records of the run with frame 0 decodable, minus frame 0's record.  No
failure aborts the batch. -/
theorem C6_skip_continue (f : Option Image) (rest : List (Option Image))
    (ps : List (Option Pos)) :
    process_batch_photometry (none :: rest) ps
      = (process_batch_photometry (f :: rest) ps).filter
          (fun r => decide (r.image_index ≠ 0)) := by
  match ps with
  | [] => simp [process_batch_photometry, batch_go]
  | q :: qs =>
    unfold process_batch_photometry
    have hlen : (q :: qs).length = qs.length + 1 := rfl
    rw [hlen, List.take_succ_cons, List.take_succ_cons, List.zip_cons_cons,
      List.zip_cons_cons]
    show batch_go (q :: qs) 0 ((none, q) :: (rest.take qs.length).zip qs) = _
    have hgo1 : ∀ r, r ∈ batch_go (q :: qs) 1 ((rest.take qs.length).zip qs) →
        decide (r.image_index ≠ 0) = true := by
      intro r hr
      have := batch_go_index_ge (q :: qs) _ 1 r hr
      simp
      omega
    have hl : batch_go (q :: qs) 0 ((none, q) :: (rest.take qs.length).zip qs)
        = batch_go (q :: qs) 1 ((rest.take qs.length).zip qs) := rfl
    have hrhs : batch_go (q :: qs) 0 ((f, q) :: (rest.take qs.length).zip qs)
        = match process_single_image_batch f q 0 (q :: qs) with
          | some r => r :: batch_go (q :: qs) 1 ((rest.take qs.length).zip qs)
          | none => batch_go (q :: qs) 1 ((rest.take qs.length).zip qs) := rfl
    rw [hl, hrhs]
    match hcall : process_single_image_batch f q 0 (q :: qs) with
    | some r0 =>
      have h0 : r0.image_index = 0 := process_single_image_batch_index hcall
      have hfs := (List.filter_eq_self.mpr hgo1).symm
      have hfc : List.filter (fun r => decide (r.image_index ≠ 0))
          (r0 :: batch_go (q :: qs) 1 ((rest.take qs.length).zip qs))
        = List.filter (fun r => decide (r.image_index ≠ 0))
          (batch_go (q :: qs) 1 ((rest.take qs.length).zip qs)) :=
        List.filter_cons_of_neg (by simp [h0])
      exact hfs.trans hfc.symm
    | none =>
      exact (List.filter_eq_self.mpr hgo1).symm

/-- Evaluation helper: the square root of a square of a nonnegative number. -/
theorem sqrt_eval {a b : ℝ} (hb : 0 ≤ b) (h : a = b ^ 2) : Real.sqrt a = b := by
  rw [h, Real.sqrt_sq hb]

/-- Standard deviation of `[0, 0, 9/2, 9/2]` is 9/4. -/
theorem std_half9 : listStd [(0 : ℝ), 0, 9 / 2, 9 / 2] = 9 / 4 := by
  unfold listStd
  rw [show (([(0 : ℝ), 0, 9 / 2, 9 / 2].map
      (fun x => (x - listMean [(0 : ℝ), 0, 9 / 2, 9 / 2]) ^ 2)).sum
        / ([(0 : ℝ), 0, 9 / 2, 9 / 2].length : ℝ)) = (9 / 4 : ℝ) ^ 2 by
    norm_num [listMean]]
  exact Real.sqrt_sq (by norm_num)

/-- Standard deviation of a list of four zeros is 0. -/
theorem std_zero4 : listStd [(0 : ℝ), 0, 0, 0] = 0 := by
  unfold listStd
  rw [show (([(0 : ℝ), 0, 0, 0].map
      (fun x => (x - listMean [(0 : ℝ), 0, 0, 0]) ^ 2)).sum
        / ([(0 : ℝ), 0, 0, 0].length : ℝ)) = (0 : ℝ) by
    norm_num [listMean]]
  exact Real.sqrt_zero

/-- Standard deviation of `[1, 1, 7, 7]` is 3. -/
theorem std_1177 : listStd [(1 : ℝ), 1, 7, 7] = 3 := by
  unfold listStd
  rw [show (([(1 : ℝ), 1, 7, 7].map
      (fun x => (x - listMean [(1 : ℝ), 1, 7, 7]) ^ 2)).sum
        / ([(1 : ℝ), 1, 7, 7].length : ℝ)) = (3 : ℝ) ^ 2 by
    norm_num [listMean]]
  exact Real.sqrt_sq (by norm_num)

/-- Standard deviation of `[0, 0, 8, 8]` is 4. -/
theorem std_0088 : listStd [(0 : ℝ), 0, 8, 8] = 4 := by
  unfold listStd
  rw [show (([(0 : ℝ), 0, 8, 8].map
      (fun x => (x - listMean [(0 : ℝ), 0, 8, 8]) ^ 2)).sum
        / ([(0 : ℝ), 0, 8, 8].length : ℝ)) = (4 : ℝ) ^ 2 by
    norm_num [listMean]]
  exact Real.sqrt_sq (by norm_num)

/-- C7. The claim states the adaptive radius is
`clamp(base + 2*sqrt(std_x² + std_y²), base, 2*base)` returned as a real,
not integer-truncated, value.  The code truncates with `int(...)` before
clamping: for the four positions below (x-std 9/4, y-std 0) the claimed
formula gives 29.5 while `_calculate_adaptive_search_radius` returns 29. -/
theorem C7_counterexample :
    adaptive_search_radius [((0 : ℝ), (0 : ℝ)), (0, 0), (9 / 2, 0), (9 / 2, 0)] 25 = 29 ∧
    adaptive_radius_claimed [((0 : ℝ), (0 : ℝ)), (0, 0), (9 / 2, 0), (9 / 2, 0)] 25 = 59 / 2 ∧
    ((29 : ℝ) ≠ 59 / 2) := by
  have hvar : position_variance [((0 : ℝ), (0 : ℝ)), (0, 0), (9 / 2, 0), (9 / 2, 0)] = 9 / 4 := by
    unfold position_variance lastN
    show Real.sqrt (listStd [(0 : ℝ), 0, 9 / 2, 9 / 2] ^ 2
      + listStd [(0 : ℝ), 0, 0, 0] ^ 2) = 9 / 4
    rw [std_half9, std_zero4,
      show ((9 / 4 : ℝ) ^ 2 + (0 : ℝ) ^ 2) = (9 / 4 : ℝ) ^ 2 by norm_num]
    exact Real.sqrt_sq (by norm_num)
  refine ⟨?_, ?_, by norm_num⟩
  · unfold adaptive_search_radius
    rw [if_neg (by norm_num), hvar]
    have hfl : pyInt (25 + 2 * (9 / 4) : ℝ) = 29 := by
      unfold pyInt
      rw [if_pos (by norm_num)]
      rw [show (25 + 2 * (9 / 4) : ℝ) = 59 / 2 by norm_num]
      norm_num [Int.floor_eq_iff]
    rw [hfl]
    norm_num
  · unfold adaptive_radius_claimed
    rw [if_neg (by norm_num), hvar]
    norm_num

/-- C7 (amended). The adaptive radius is `base` with fewer than three
recorded positions; otherwise it is the claimed clamp applied to
`int(base + 2*variance)` — the truncation loses less than one pixel, so the
code's value is sandwiched within 1 below the claimed real value, and the
spec's worked example (base 25, last-5 x-std 3, y-std 4) still yields
exactly 35 because 35 is an integer. -/
theorem C7_adaptive_radius :
    (∀ (hist : List Pos) (base : ℝ), hist.length < 3 →
        adaptive_search_radius hist base = base) ∧
    adaptive_search_radius [((1 : ℝ), (0 : ℝ)), (1, 0), (7, 8), (7, 8)] 25 = 35 ∧
    (∀ (hist : List Pos) (base : ℝ), 0 ≤ base → 3 ≤ hist.length →
        adaptive_search_radius hist base ≤ adaptive_radius_claimed hist base ∧
        adaptive_radius_claimed hist base - 1 < adaptive_search_radius hist base) := by
  refine ⟨?_, ?_, ?_⟩
  · intro hist base h
    unfold adaptive_search_radius
    rw [if_pos h]
  · have hvar : position_variance [((1 : ℝ), (0 : ℝ)), (1, 0), (7, 8), (7, 8)] = 5 := by
      unfold position_variance lastN
      show Real.sqrt (listStd [(1 : ℝ), 1, 7, 7] ^ 2
        + listStd [(0 : ℝ), 0, 8, 8] ^ 2) = 5
      rw [std_1177, std_0088,
        show ((3 : ℝ) ^ 2 + (4 : ℝ) ^ 2) = (5 : ℝ) ^ 2 by norm_num]
      exact Real.sqrt_sq (by norm_num)
    unfold adaptive_search_radius
    rw [if_neg (by norm_num), hvar]
    have hfl : pyInt (25 + 2 * 5 : ℝ) = 35 := by
      unfold pyInt
      rw [if_pos (by norm_num)]
      rw [show (25 + 2 * 5 : ℝ) = 35 by norm_num]
      norm_num [Int.floor_eq_iff]
    rw [hfl]
    norm_num
  · intro hist base hb hlen
    unfold adaptive_search_radius adaptive_radius_claimed
    rw [if_neg (by omega), if_neg (by omega)]
    have hv0 : 0 ≤ position_variance hist := Real.sqrt_nonneg _
    set v := position_variance hist
    have hc0 : (0 : ℝ) ≤ base + 2 * v := by linarith
    have hpy : pyInt (base + 2 * v) = ⌊base + 2 * v⌋ := by
      unfold pyInt
      rw [if_pos hc0]
    rw [hpy]
    have hfl : ((⌊base + 2 * v⌋ : ℤ) : ℝ) ≤ base + 2 * v := Int.floor_le _
    have hfg : base + 2 * v - 1 < ((⌊base + 2 * v⌋ : ℤ) : ℝ) := Int.sub_one_lt_floor _
    constructor
    · exact max_le_max le_rfl (min_le_min hfl le_rfl)
    · have hB : min (base + 2 * v - 1) (base * 2 - 1)
          < max base (min ((⌊base + 2 * v⌋ : ℤ) : ℝ) (base * 2)) := by
        rcases le_total ((⌊base + 2 * v⌋ : ℤ) : ℝ) (base * 2) with h2 | h2
        · calc min (base + 2 * v - 1) (base * 2 - 1) ≤ base + 2 * v - 1 := min_le_left _ _
            _ < ((⌊base + 2 * v⌋ : ℤ) : ℝ) := hfg
            _ = min ((⌊base + 2 * v⌋ : ℤ) : ℝ) (base * 2) := (min_eq_left h2).symm
            _ ≤ max base _ := le_max_right _ _
        · calc min (base + 2 * v - 1) (base * 2 - 1) ≤ base * 2 - 1 := min_le_right _ _
            _ < base * 2 := by linarith
            _ = min ((⌊base + 2 * v⌋ : ℤ) : ℝ) (base * 2) := (min_eq_right h2).symm
            _ ≤ max base _ := le_max_right _ _
      calc max base (min (base + 2 * v) (base * 2)) - 1
          = max (base - 1) (min (base + 2 * v - 1) (base * 2 - 1)) := by
            rw [← max_sub_sub_right, ← min_sub_sub_right]
        _ < max base (min ((⌊base + 2 * v⌋ : ℤ) : ℝ) (base * 2)) :=
            max_lt (lt_of_lt_of_le (by linarith) (le_max_left _ _)) hB

/-- Witness for C7's amended theorem: an empty history keeps the base. -/
theorem C7_adaptive_radius_witness :
    adaptive_search_radius ([] : List Pos) 25 = 25 :=
  C7_adaptive_radius.1 [] 25 (by simp)

/-- Length of the retained suffix. -/
theorem lastN_length (n : ℕ) (l : List α) : (lastN n l).length = min n l.length := by
  unfold lastN
  rw [List.length_drop]
  omega

/-- Appending one element to a FIFO suffix: the newcomer always enters, and
the oldest entry leaves exactly when the window was full. -/
theorem lastN_snoc (n : ℕ) (l : List α) (x : α) (hn : 0 < n) :
    lastN n (l ++ [x])
      = (if n < l.length + 1 then (lastN n l).tail else lastN n l) ++ [x] := by
  unfold lastN
  have hlen : (l ++ [x]).length = l.length + 1 := by simp
  by_cases h : n < l.length + 1
  · rw [if_pos h, hlen, List.tail_drop,
      show l.length + 1 - n = l.length - n + 1 by omega,
      List.drop_append_eq_append_drop,
      show l.length - n + 1 - l.length = 0 by omega]
    rfl
  · rw [if_neg h, hlen, show l.length + 1 - n = 0 by omega,
      show l.length - n = 0 by omega]
    rfl

/-- The newest retained entry is the newest pushed entry. -/
theorem lastN_getLast? (l : List α) : (lastN 5 l).getLast? = l.getLast? := by
  unfold lastN
  rcases eq_or_ne l [] with rfl | h
  · rfl
  · have hpos : 0 < l.length := List.length_pos.mpr h
    have h1 : l.drop (l.length - 5) ≠ [] := by
      rw [ne_eq, List.drop_eq_nil_iff]
      omega
    conv_rhs => rw [← List.take_append_drop (l.length - 5) l]
    rw [List.getLast?_append_of_ne_nil _ h1]

/-- Appending a position extends the difference sequence by the difference
with the previous last position. -/
theorem posDiffs_snoc (l : List Pos) (x : Pos) :
    posDiffs (l ++ [x]) = posDiffs l ++
      (match l.getLast? with
       | some q => [(x.1 - q.1, x.2 - q.2)]
       | none => ([] : List Pos)) := by
  induction l with
  | nil => rfl
  | cons a t ih =>
    cases t with
    | nil => rfl
    | cons b t2 =>
      rw [List.getLast?_cons_cons]
      have lhs_eq : posDiffs ((a :: b :: t2) ++ [x])
          = (b.1 - a.1, b.2 - a.2) :: posDiffs ((b :: t2) ++ [x]) := rfl
      rw [lhs_eq, ih]
      rfl

/-- Unfolded form of `update_tracking_history` (definitional). -/
theorem update_tracking_history_def (st : TrackState) (pos : Pos) (conf : ℝ) :
    update_tracking_history st pos conf =
      { position_history := if 5 < (st.position_history ++ [pos]).length
          then (st.position_history ++ [pos]).tail else st.position_history ++ [pos]
        tracking_confidence := if 5 < (st.position_history ++ [pos]).length
          then (st.tracking_confidence ++ [conf]).tail else st.tracking_confidence ++ [conf]
        velocity_history :=
          if 5 < (if 2 ≤ (st.position_history ++ [pos]).length then
              match st.position_history.getLast? with
              | some prev => st.velocity_history ++ [(pos.1 - prev.1, pos.2 - prev.2)]
              | none => st.velocity_history
            else st.velocity_history).length
          then (if 2 ≤ (st.position_history ++ [pos]).length then
              match st.position_history.getLast? with
              | some prev => st.velocity_history ++ [(pos.1 - prev.1, pos.2 - prev.2)]
              | none => st.velocity_history
            else st.velocity_history).tail
          else (if 2 ≤ (st.position_history ++ [pos]).length then
              match st.position_history.getLast? with
              | some prev => st.velocity_history ++ [(pos.1 - prev.1, pos.2 - prev.2)]
              | none => st.velocity_history
            else st.velocity_history) } := rfl

/-- One push on a state whose three lists are the FIFO suffixes of the pushed
data extends each suffix by the new entry. -/
theorem update_lastN_step (P : List Pos) (C : List ℝ) (p : Pos) (c : ℝ)
    (hPC : C.length = P.length) :
    update_tracking_history ⟨lastN 5 P, lastN 5 (posDiffs P), lastN 5 C⟩ p c
      = ⟨lastN 5 (P ++ [p]), lastN 5 (posDiffs (P ++ [p])), lastN 5 (C ++ [c])⟩ := by
  rw [update_tracking_history_def]
  simp only [TrackState.mk.injEq]
  refine ⟨?_, ?_, ?_⟩
  · rw [lastN_snoc 5 P p (by norm_num)]
    by_cases h5 : 5 ≤ P.length
    · rw [if_pos (by simp [lastN_length]; omega), if_pos (by omega)]
      exact List.tail_append_of_ne_nil
        (by rw [ne_eq, ← List.length_eq_zero, lastN_length]; omega)
    · rw [if_neg (by simp [lastN_length]; omega), if_neg (by omega)]
  · rcases eq_or_ne P [] with rfl | hP
    · rfl
    · have hpos : 0 < P.length := List.length_pos.mpr hP
      obtain ⟨q, hq⟩ := Option.isSome_iff_exists.mp
        ((List.getLast?_isSome).mpr hP)
      have h2le : 2 ≤ (lastN 5 P ++ [p]).length := by
        simp [lastN_length]
        omega
      have hmatch : (match P.getLast? with
          | some prev => lastN 5 (posDiffs P) ++ [(p.1 - prev.1, p.2 - prev.2)]
          | none => lastN 5 (posDiffs P))
            = lastN 5 (posDiffs P) ++ [(p.1 - q.1, p.2 - q.2)] := by
        rw [hq]
      have hdiff : posDiffs (P ++ [p]) = posDiffs P ++ [(p.1 - q.1, p.2 - q.2)] := by
        rw [posDiffs_snoc, hq]
      rw [lastN_getLast? P, hmatch, if_pos h2le, hdiff,
        lastN_snoc 5 (posDiffs P) (p.1 - q.1, p.2 - q.2) (by norm_num)]
      by_cases h5 : 5 ≤ (posDiffs P).length
      · rw [if_pos (by simp [lastN_length]; omega), if_pos (by omega)]
        exact List.tail_append_of_ne_nil
          (by rw [ne_eq, ← List.length_eq_zero, lastN_length]; omega)
      · rw [if_neg (by simp [lastN_length]; omega), if_neg (by omega)]
  · rw [lastN_snoc 5 C c (by norm_num)]
    by_cases h5 : 5 ≤ P.length
    · rw [if_pos (by simp [lastN_length]; omega), if_pos (by omega)]
      exact List.tail_append_of_ne_nil
        (by rw [ne_eq, ← List.length_eq_zero, lastN_length]; omega)
    · rw [if_neg (by simp [lastN_length]; omega), if_neg (by omega)]

/-- C9. After any finite sequence of `_update_tracking_history` calls from
the empty history, the position, velocity and confidence histories each hold
at most 5 entries, and each equals the FIFO window over everything pushed:
the last 5 pushed positions, the last 5 pushed confidences, and the last 5
consecutive position differences — eviction always removes the oldest entry
and preserves the order of the rest. -/
theorem C9_history_fifo (pushes : List (Pos × ℝ)) :
    (pushAll pushes).position_history = lastN 5 (pushes.map Prod.fst) ∧
    (pushAll pushes).tracking_confidence = lastN 5 (pushes.map Prod.snd) ∧
    (pushAll pushes).velocity_history = lastN 5 (posDiffs (pushes.map Prod.fst)) ∧
    (pushAll pushes).position_history.length ≤ 5 ∧
    (pushAll pushes).velocity_history.length ≤ 5 ∧
    (pushAll pushes).tracking_confidence.length ≤ 5 := by
  induction pushes using List.reverseRecOn with
  | nil =>
    refine ⟨rfl, rfl, rfl, ?_, ?_, ?_⟩ <;> simp [pushAll, emptyTrackState]
  | append_singleton l pc ih =>
    obtain ⟨h1, h2, h3, _, _, _⟩ := ih
    have hfold : pushAll (l ++ [pc]) = update_tracking_history (pushAll l) pc.1 pc.2 := by
      simp [pushAll, List.foldl_append]
    have hst : pushAll l
        = ⟨lastN 5 (l.map Prod.fst), lastN 5 (posDiffs (l.map Prod.fst)),
            lastN 5 (l.map Prod.snd)⟩ := by
      have heta : pushAll l = ⟨(pushAll l).position_history, (pushAll l).velocity_history,
          (pushAll l).tracking_confidence⟩ := rfl
      rw [heta, h1, h2, h3]
    have hmapf : (l ++ [pc]).map Prod.fst = l.map Prod.fst ++ [pc.1] := by
      simp
    have hmaps : (l ++ [pc]).map Prod.snd = l.map Prod.snd ++ [pc.2] := by
      simp
    have hstep := update_lastN_step (l.map Prod.fst) (l.map Prod.snd) pc.1 pc.2 (by simp)
    rw [hfold, hst, hstep, hmapf, hmaps]
    refine ⟨rfl, rfl, rfl, ?_, ?_, ?_⟩ <;> simp [lastN_length]

/-- A threshold at or above every pixel zero-clips the whole weight plane. -/
theorem gridTotal_clipWeights_eq_zero (c : Image) (t : ℝ)
    (h : ∀ v ∈ c.flatten, v ≤ t) : gridTotal (clipWeights c t) = 0 := by
  unfold gridTotal clipWeights
  rw [List.map_map]
  apply List.sum_eq_zero
  intro x hx
  rw [List.mem_map] at hx
  obtain ⟨row, hrow, rfl⟩ := hx
  apply List.sum_eq_zero
  intro y hy
  rw [List.mem_map] at hy
  obtain ⟨v, hv, rfl⟩ := hy
  have hvt : v ≤ t := h v (List.mem_flatten.mpr ⟨row, hrow, hv⟩)
  exact max_eq_right (by linarith)

/-- Elements of a slice are elements of the sliced list. -/
theorem mem_of_mem_slice2 {l : List β} {lo hi : ℤ} {x : β}
    (hx : x ∈ slice2 l lo hi) : x ∈ l :=
  List.mem_of_mem_drop (List.mem_of_mem_take hx)

/-- Pixels of a two-dimensional sub-window are pixels of the plane. -/
theorem mem_flatten_window {c : Image} {y1 y2 x1 x2 : ℤ} {v : ℝ}
    (hv : v ∈ ((slice2 c y1 y2).map (fun row => slice2 row x1 x2)).flatten) :
    v ∈ c.flatten := by
  rw [List.mem_flatten] at hv ⊢
  obtain ⟨row2, hrow2, hvrow⟩ := hv
  rw [List.mem_map] at hrow2
  obtain ⟨row, hrow, rfl⟩ := hrow2
  exact ⟨row, mem_of_mem_slice2 hrow, mem_of_mem_slice2 hvrow⟩

/-- A sub-window of an all-below-threshold plane also clips to zero mass. -/
theorem windowTotal_zero (c : Image) (t : ℝ) (h : ∀ v ∈ c.flatten, v ≤ t)
    (y1 y2 x1 x2 : ℤ) :
    gridTotal (clipWeights ((slice2 c y1 y2).map (fun row => slice2 row x1 x2)) t) = 0 :=
  gridTotal_clipWeights_eq_zero _ _ (fun v hv => h v (mem_flatten_window hv))

/-- C4. When the (nonempty) cutout holds no pixel above the adaptive
threshold — so neither the center-of-mass method nor the peak-refinement
method finds any mass — and fewer than two positions are recorded (momentum
prediction not applicable), `track_star_position` returns the expected
position unchanged and records it with confidence exactly 0.1 (≤ 0.1); in
the embedding the function is total, so no error can be raised. -/
theorem C4_lost_fallback (img : Image) (expected : Pos) (base : ℤ) (st : TrackState)
    (hh : st.position_history.length < 2)
    (hc : cutSize (cutoutOf img (search_region img expected.1 expected.2
        (adaptive_search_radius_int st.position_history base))) ≠ 0)
    (hb : ∀ v ∈ (cutoutOf img (search_region img expected.1 expected.2
          (adaptive_search_radius_int st.position_history base))).flatten,
        v ≤ (calculate_adaptive_threshold (cutoutOf img (search_region img expected.1
          expected.2 (adaptive_search_radius_int st.position_history base)))).1) :
    track_star_position img expected base st
      = (expected, update_tracking_history st expected 0.1) := by
  have hpred : predict_position_with_momentum st expected = expected := by
    unfold predict_position_with_momentum
    rw [if_pos hh]
  simp only [track_star_position, hpred]
  rw [if_neg hc]
  have htotA := gridTotal_clipWeights_eq_zero _ _ hb
  split_ifs with h1 h2 h3
  · rw [htotA] at h1
    exact absurd h1.1 (lt_irrefl 0)
  · rw [windowTotal_zero _ _ hb] at h2
    exact absurd h2.1 (lt_irrefl 0)
  · exact absurd rfl h3.1
  · rfl

/-- C5 (amended). Whenever the extracted cutout is nonempty, the call makes
exactly one history push: the returned state is
`update_tracking_history st p c` for the returned position `p` and some
confidence `c`.  (With an empty cutout the call returns early with no push —
see the counterexample.) -/
theorem C5_one_push (img : Image) (expected : Pos) (base : ℤ) (st : TrackState)
    (hc : cutSize (cutoutOf img (search_region img
        (predict_position_with_momentum st expected).1
        (predict_position_with_momentum st expected).2
        (adaptive_search_radius_int st.position_history base))) ≠ 0) :
    ∃ p c, track_star_position img expected base st
      = (p, update_tracking_history st p c) := by
  simp only [track_star_position]
  rw [if_neg hc]
  split_ifs with h1 h2 h3
  · exact ⟨_, _, rfl⟩
  · exact ⟨_, _, rfl⟩
  · exact ⟨_, _, rfl⟩
  · exact ⟨_, _, rfl⟩

/-- Prediction from an empty history is the identity. -/
theorem predict_empty (e : Pos) :
    predict_position_with_momentum emptyTrackState e = e := by
  simp [predict_position_with_momentum, emptyTrackState]

/-- The adaptive integer radius from an empty history is the base radius. -/
theorem rad_empty_int (b : ℤ) :
    adaptive_search_radius_int emptyTrackState.position_history b = b := by
  simp [adaptive_search_radius_int, emptyTrackState]

/-- The unit search region around the origin on a one-pixel image. -/
theorem region_unit : search_region [[(0 : ℝ)]] 0 0 1 = ⟨0, 1, 0, 1⟩ := by
  unfold search_region pyInt numCols numRows
  norm_num

/-- The one-pixel cutout of the one-pixel image. -/
theorem cutout_unit : cutoutOf [[(0 : ℝ)]] (search_region [[(0 : ℝ)]] 0 0 1)
    = [[(0 : ℝ)]] := by
  rw [region_unit]
  unfold cutoutOf slice2
  norm_num

/-- A far-away expected position clamps the search region to an empty slice. -/
theorem cutout_far : cutoutOf [[(0 : ℝ)]] (search_region [[(0 : ℝ)]] 100 100 5)
    = [] := by
  unfold cutoutOf search_region slice2 pyInt numCols numRows
  norm_num [Int.floor_eq_iff]

/-- Median of the singleton zero list. -/
theorem median_unit : listMedian [(0 : ℝ)] = 0 := by
  simp [listMedian, sortR, insertR]

/-- Standard deviation of the singleton zero list. -/
theorem std_unit : listStd [(0 : ℝ)] = 0 := by
  unfold listStd
  rw [show ((([(0 : ℝ)]).map (fun x => (x - listMean [(0 : ℝ)]) ^ 2)).sum
      / (([(0 : ℝ)]).length : ℝ)) = (0 : ℝ) by norm_num [listMean]]
  exact Real.sqrt_zero

/-- Sigma clipping is the identity on a list it does not shrink. -/
theorem sigmaClipLoop_fix (fuel : ℕ) (l : List ℝ)
    (h : l.filter (fun v => decide (listMedian l - 3 * listStd l ≤ v ∧
        v ≤ listMedian l + 3 * listStd l)) = l) :
    sigmaClipLoop fuel l = l := by
  cases fuel with
  | zero => rfl
  | succ n =>
    show (if (l.filter (fun v => decide (listMedian l - 3 * listStd l ≤ v ∧
          v ≤ listMedian l + 3 * listStd l))).length = l.length then l
        else sigmaClipLoop n (l.filter (fun v => decide (listMedian l - 3 * listStd l ≤ v ∧
          v ≤ listMedian l + 3 * listStd l)))) = l
    rw [h]
    simp

/-- Sigma-clipped statistics of the singleton zero list. -/
theorem stats_unit : sigma_clipped_stats [(0 : ℝ)] = (0, 0, 0) := by
  show (listMean (sigmaClipLoop 10 [(0 : ℝ)]), listMedian (sigmaClipLoop 10 [(0 : ℝ)]),
      listStd (sigmaClipLoop 10 [(0 : ℝ)])) = (0, 0, 0)
  rw [sigmaClipLoop_fix 10 [(0 : ℝ)] (by
    rw [median_unit, std_unit]
    norm_num)]
  rw [median_unit, std_unit]
  norm_num [listMean]

/-- The adaptive threshold of the one-pixel zero image is zero. -/
theorem threshold_unit : calculate_adaptive_threshold [[(0 : ℝ)]] = (0, 0) := by
  simp only [calculate_adaptive_threshold]
  rw [show ([[(0 : ℝ)]] : Image).flatten = [(0 : ℝ)] from rfl, stats_unit]
  norm_num [listMax]

/-- Witness for C4 on a concrete flat one-pixel frame: the cutout is the
whole image, its only pixel equals the threshold, the history is empty, and
the tracker returns the expected position with a 0.1-confidence push. -/
theorem C4_lost_fallback_witness :
    track_star_position [[(0 : ℝ)]] (0, 0) 1 emptyTrackState
      = ((0, 0), update_tracking_history emptyTrackState (0, 0) 0.1) :=
  C4_lost_fallback [[(0 : ℝ)]] (0, 0) 1 emptyTrackState
    (by simp [emptyTrackState])
    (by
      dsimp only [emptyTrackState]
      rw [show adaptive_search_radius_int ([] : List Pos) 1 = 1 by
          simp [adaptive_search_radius_int],
        cutout_unit]
      simp [cutSize])
    (by
      dsimp only [emptyTrackState]
      rw [show adaptive_search_radius_int ([] : List Pos) 1 = 1 by
          simp [adaptive_search_radius_int],
        cutout_unit, threshold_unit]
      intro v hv
      simp at hv
      simp [hv])

/-- Witness for C5's amended theorem at the same concrete frame. -/
theorem C5_one_push_witness :
    ∃ p c, track_star_position [[(0 : ℝ)]] (0, 0) 1 emptyTrackState
      = (p, update_tracking_history emptyTrackState p c) :=
  C5_one_push [[(0 : ℝ)]] (0, 0) 1 emptyTrackState
    (by
      rw [predict_empty, rad_empty_int]
      dsimp only
      rw [cutout_unit]
      simp [cutSize])

/-- C5. The claim states every `track_star_position` call pushes to the
tracking history exactly once before returning.  Not so: when the clamped
cutout is empty (here: the expected position lies far outside a one-pixel
image), the function returns at the `cutout.size == 0` early exit
(src/photometry.py lines 1417-1418) without touching the history — zero
pushes, where the claim requires one. -/
theorem C5_counterexample :
    (track_star_position [[(0 : ℝ)]] (100, 100) 5 emptyTrackState).2 = emptyTrackState ∧
    emptyTrackState.position_history.length = 0 := by
  constructor
  · simp only [track_star_position, predict_empty, rad_empty_int]
    rw [cutout_far]
    simp [cutSize]
  · rfl

end

end DSLRPhot
